import Mathlib

/-!
Verification of the `tec::FilePath` filesystem-path abstraction
(`src/common/filesystem.hpp` of the `tec` repository).

The embedding models the non-Windows (`#else`) build configuration of the
header: the native separator is the forward slash `'/'`, the foreign
separator is the backslash, and the canonical path is stored as a UTF-8
string (modelled here as a `List Char`).

The inline operators (`operator=`, `operator+=`, `operator/=`, `operator+`,
`operator/`, the stream operators, `toString`, `empty`) are translated
directly from the header.  The out-of-line member functions
(`NormalizePath`, `toGenericString`, the platform queries and the asset
cache) are declared in the header but their definitions are not part of
the given sources; those are modelled from the spec, as marked on each
definition.
-/

namespace tec

/-- Native path separator character, non-Windows branch of the header
(`PATH_SEPARATOR_C = '/'`). -/
def PATH_SEPARATOR_C : Char := '/'

/-- The foreign separator: the separator of the other OS family
(backslash on a non-Windows host). -/
def FOREIGN_SEPARATOR_C : Char := '\\'

/-- Modelled from the spec (§4.2 step 1): replace every occurrence of the
foreign separator character with the native separator character. -/
def replaceSep (l : List Char) : List Char :=
  l.map (fun c => if c = '\\' then '/' else c)

/-- Does the string begin with a two-character drive prefix of the form
letter-colon?  (Spec §4.2 step 2.) -/
def drivePreB : List Char → Bool
  | c₁ :: c₂ :: _ => c₁.isAlpha && c₂ == ':'
  | _ => false

/-- Modelled from the spec (§4.2 step 2): on a non-drive-letter OS, strip a
leading two-character drive prefix of the form letter-colon if present. -/
def stripDrive (l : List Char) : List Char :=
  if drivePreB l then l.drop 2 else l

/-- Modelled from the spec (§4.2): the algorithm of `FilePath::NormalizePath`,
whose definition is not in the given sources.  Step 1 replaces foreign
separators, step 2 strips a drive prefix, and (step 3) consecutive
separators are left unchanged — no deduplication. -/
def normalizeChars (l : List Char) : List Char :=
  stripDrive (replaceSep l)

/-- The `tec::FilePath` value type: a canonical UTF-8 path string
(field `std::string path` of the class, modelled as a character list). -/
structure FilePath where
  path : List Char
deriving DecidableEq

/-- The default constructor `FilePath()`: an empty path. -/
def FilePath.mkEmpty : FilePath := ⟨[]⟩

/-- The constructor `FilePath(const std::string&)` at its default slice
arguments: store the string and normalize (spec §4.1: construction
immediately normalizes). -/
def FilePath.ofString (s : String) : FilePath := ⟨normalizeChars s.data⟩

/-- Member `toString()`: returns the canonical string unchanged. -/
def FilePath.toString (p : FilePath) : String := ⟨p.path⟩

/-- Member `empty()`: true iff the canonical string has zero length. -/
def FilePath.isEmptyPath (p : FilePath) : Bool := p.path.isEmpty

/-- Copy assignment, operator= from another FilePath: copies the other
path's string without re-normalizing (header comment: "Not necessary to
normalize"). -/
def FilePath.assign (_self rhs : FilePath) : FilePath := ⟨rhs.path⟩

/-- Assignment operator= from a std::string: store the string, then
NormalizePath. -/
def FilePath.assignString (_self : FilePath) (s : String) : FilePath :=
  ⟨normalizeChars s.data⟩

/-- Concatenation operator+= from another FilePath: append the right
operand's canonical string with no separator, then NormalizePath. -/
def FilePath.plusAssign (self rhs : FilePath) : FilePath :=
  ⟨normalizeChars (self.path ++ rhs.path)⟩

/-- Does the string begin with the native separator?  Mirrors the
`rhs.path.front() == PATH_SEPARATOR_C` test of `operator/=`. -/
def startsWithSep : List Char → Bool
  | c :: _ => c == '/'
  | [] => false

/-- Does the string end with the native separator?  Mirrors the
`path.back() == PATH_SEPARATOR_C` test of `operator/=`. -/
def endsWithSep : List Char → Bool
  | [] => false
  | [c] => c == '/'
  | _ :: c :: rest => endsWithSep (c :: rest)

/-- Append operator/= from another FilePath, translated branch for branch
from the header: if the left side is empty, prepend a separator unless the
right side already starts with one; otherwise insert a separator unless
the left side ends with one or the right side starts with one; finally
NormalizePath. -/
def FilePath.divAssign (self rhs : FilePath) : FilePath :=
  let raw :=
    if self.path.isEmpty then
      if rhs.path.isEmpty || !(startsWithSep rhs.path) then
        self.path ++ '/' :: rhs.path
      else
        self.path ++ rhs.path
    else
      if !(endsWithSep self.path) && (rhs.path.isEmpty || !(startsWithSep rhs.path)) then
        self.path ++ '/' :: rhs.path
      else
        self.path ++ rhs.path
  ⟨normalizeChars raw⟩

/-- Free value-producing operator+ : builds a copy of the left operand and
applies operator+= with the right operand. -/
def FilePath.plus (lhs rhs : FilePath) : FilePath := FilePath.plusAssign lhs rhs

/-- Free value-producing operator/ : builds a copy of the left operand and
applies operator/= with the right operand. -/
def FilePath.div (lhs rhs : FilePath) : FilePath := FilePath.divAssign lhs rhs

/-- Separator replacement never leaves a backslash in the string. -/
lemma not_bs_replaceSep (l : List Char) : '\\' ∉ replaceSep l := by
  intro h
  simp only [replaceSep, List.mem_map] at h
  obtain ⟨c, _, hc⟩ := h
  by_cases h' : c = '\\' <;> simp [h'] at hc

/-- Every character of the drive-stripped string occurs in the original. -/
lemma stripDrive_subset (l : List Char) : ∀ c ∈ stripDrive l, c ∈ l := by
  intro c hc
  unfold stripDrive at hc
  split at hc
  · exact List.mem_of_mem_drop hc
  · exact hc

/-- Normalization never leaves a backslash in the string. -/
lemma not_bs_normalizeChars (l : List Char) : '\\' ∉ normalizeChars l := by
  intro h
  exact not_bs_replaceSep l (stripDrive_subset _ _ h)

/-- Separator replacement is the identity on backslash-free strings. -/
lemma replaceSep_eq_self {l : List Char} (h : '\\' ∉ l) : replaceSep l = l := by
  induction l with
  | nil => rfl
  | cons c t ih =>
    rw [List.mem_cons, not_or] at h
    show (if c = '\\' then '/' else c) :: replaceSep t = c :: t
    rw [if_neg (fun hcc => h.1 hcc.symm), ih h.2]

/-- Drive stripping is the identity when no drive prefix is present. -/
lemma stripDrive_eq_self {l : List Char} (h : drivePreB l = false) :
    stripDrive l = l := by
  unfold stripDrive
  rw [h]
  simp

/-- Normalization is the identity on backslash-free strings that do not
begin with a drive prefix. -/
lemma normalizeChars_eq_self {l : List Char} (h1 : '\\' ∉ l)
    (h2 : drivePreB l = false) : normalizeChars l = l := by
  unfold normalizeChars
  rw [replaceSep_eq_self h1, stripDrive_eq_self h2]

/-- A string that begins with the native separator has no drive prefix. -/
lemma drivePreB_sep_cons (t : List Char) : drivePreB ('/' :: t) = false := by
  cases t with
  | nil => rfl
  | cons c t' =>
    have h : ('/').isAlpha = false := by decide
    simp [drivePreB, h]

/-- Normalization fixes a separator-inserting junction: gluing a
drive-free nonempty backslash-free left part to a backslash-free right
part with an explicit separator survives normalization unchanged. -/
lemma normalizeChars_append_sep (l r : List Char) (hl : '\\' ∉ l)
    (hr : '\\' ∉ r) (hd : drivePreB l = false) (hne : l ≠ []) :
    normalizeChars (l ++ '/' :: r) = l ++ '/' :: r := by
  apply normalizeChars_eq_self
  · intro h
    rcases List.mem_append.mp h with h | h
    · exact hl h
    · rcases List.mem_cons.mp h with h | h
      · exact absurd h (by decide)
      · exact hr h
  · cases l with
    | nil => exact absurd rfl hne
    | cons c t =>
      cases t with
      | nil =>
        have h : ('/' == ':') = false := by decide
        simp [drivePreB, h]
      | cons c2 t2 => simpa [drivePreB] using hd

/-- Normalization fixes a plain junction provided the junction already
carries a separator on one side. -/
lemma normalizeChars_append_plain (l r : List Char) (hl : '\\' ∉ l)
    (hr : '\\' ∉ r) (hd : drivePreB l = false) (hne : l ≠ [])
    (hj : endsWithSep l = true ∨ startsWithSep r = true) :
    normalizeChars (l ++ r) = l ++ r := by
  apply normalizeChars_eq_self
  · intro h
    rcases List.mem_append.mp h with h | h
    · exact hl h
    · exact hr h
  · cases l with
    | nil => exact absurd rfl hne
    | cons c t =>
      cases t with
      | nil =>
        rcases hj with hj | hj
        · have hc : c = '/' := by simpa [endsWithSep] using hj
          subst hc
          exact drivePreB_sep_cons r
        · cases r with
          | nil => simp [startsWithSep] at hj
          | cons c2 r2 =>
            have hc2 : c2 = '/' := by simpa [startsWithSep] using hj
            subst hc2
            have h : ('/' == ':') = false := by decide
            simp [drivePreB, h]
      | cons c2 t2 => simpa [drivePreB] using hd

/-- Unfolding of operator/= to its raw pre-normalization concatenation. -/
lemma divAssign_raw (l r : List Char) :
    (FilePath.divAssign ⟨l⟩ ⟨r⟩).path =
      normalizeChars (if l.isEmpty then
          (if r.isEmpty || !(startsWithSep r) then l ++ '/' :: r else l ++ r)
        else
          (if !(endsWithSep l) && (r.isEmpty || !(startsWithSep r)) then
            l ++ '/' :: r
          else l ++ r)) := rfl

/-- Emptiness test folded into the junction test on the right operand. -/
lemma isEmpty_or_not_starts (r : List Char) :
    (r.isEmpty || !(startsWithSep r)) = !(startsWithSep r) := by
  cases r <;> simp [startsWithSep, List.isEmpty]

/-- Junction shape of operator/= for a nonempty, backslash-free,
drive-free left operand and a backslash-free right operand: the separator
is inserted exactly when neither side supplies one, and otherwise the two
canonical strings are concatenated as they are. -/
lemma divAssign_junction (l r : List Char) (hl : '\\' ∉ l) (hr : '\\' ∉ r)
    (hd : drivePreB l = false) (hne : l ≠ []) :
    (FilePath.divAssign ⟨l⟩ ⟨r⟩).path =
      if endsWithSep l = false ∧ startsWithSep r = false then
        l ++ '/' :: r
      else l ++ r := by
  have hle : l.isEmpty = false := by
    cases l with
    | nil => exact absurd rfl hne
    | cons c t => rfl
  rw [divAssign_raw, hle, isEmpty_or_not_starts]
  cases hE : endsWithSep l <;> cases hS : startsWithSep r <;>
    simp only [Bool.false_eq_true, if_false, Bool.not_false, Bool.not_true,
      Bool.true_and, Bool.false_and, Bool.and_self, if_true,
      and_self, and_false, false_and, eq_self_iff_true]
  · exact normalizeChars_append_sep l r hl hr hd hne
  · have h : ((false = false) ∧ (true = false)) = False := by simp
    rw [if_neg (by simp)]
    exact normalizeChars_append_plain l r hl hr hd hne (Or.inr hS)
  · rw [if_neg (by simp)]
    exact normalizeChars_append_plain l r hl hr hd hne (Or.inl hE)
  · rw [if_neg (by simp)]
    exact normalizeChars_append_plain l r hl hr hd hne (Or.inl hE)

/-- Claim C1 counterexample: appending a right operand that starts with a
separator to a left operand that ends with one keeps the doubled
separator, so FilePath("a/") / FilePath("/b") is a//b, different from
FilePath("a") / FilePath("b"). -/
theorem claim1_counterexample :
    (FilePath.div (FilePath.ofString "a/") (FilePath.ofString "/b")).path
      = ['a', '/', '/', 'b']
    ∧ FilePath.div (FilePath.ofString "a/") (FilePath.ofString "/b")
        ≠ FilePath.div (FilePath.ofString "a") (FilePath.ofString "b") := by
  decide

/-- Claim C1 (amended): for a nonempty left operand whose canonical string
is backslash-free and carries no leading drive prefix, and a
backslash-free right operand, operator/ inserts the native separator at
the junction exactly when neither side supplies one there; when a side
does supply one the strings are joined unchanged, so two separators at
the junction remain doubled.  In particular FilePath("a") / FilePath("b")
and FilePath("a/") / FilePath("b") are both a/b, while
FilePath("a/") / FilePath("/b") is a//b. -/
theorem claim1_append_junction :
    (∀ l r : FilePath, '\\' ∉ l.path → '\\' ∉ r.path →
      drivePreB l.path = false → l.path ≠ [] →
      (FilePath.div l r).path =
        if endsWithSep l.path = false ∧ startsWithSep r.path = false then
          l.path ++ '/' :: r.path
        else l.path ++ r.path)
    ∧ (FilePath.div (FilePath.ofString "a") (FilePath.ofString "b")).path
        = ['a', '/', 'b']
    ∧ (FilePath.div (FilePath.ofString "a/") (FilePath.ofString "b")).path
        = ['a', '/', 'b']
    ∧ (FilePath.div (FilePath.ofString "a/") (FilePath.ofString "/b")).path
        = ['a', '/', '/', 'b'] := by
  refine ⟨?_, by decide, by decide, by decide⟩
  rintro ⟨l⟩ ⟨r⟩ hl hr hd hne
  exact divAssign_junction l r hl hr hd hne

/-- Witness for claim C1 at the concrete operands x and y. -/
theorem claim1_append_junction_witness :
    (FilePath.div (FilePath.ofString "x") (FilePath.ofString "y")).path =
      if endsWithSep (FilePath.ofString "x").path = false
          ∧ startsWithSep (FilePath.ofString "y").path = false then
        (FilePath.ofString "x").path ++ '/' :: (FilePath.ofString "y").path
      else (FilePath.ofString "x").path ++ (FilePath.ofString "y").path :=
  claim1_append_junction.1 (FilePath.ofString "x") (FilePath.ofString "y")
    (by decide) (by decide) (by decide) (by decide)

/-- Claim C2: for an empty left operand and a backslash-free right
operand, operator/ prepends the native separator exactly when the right
operand does not begin with one; otherwise the right operand is taken
unchanged. -/
theorem claim2_append_empty_left :
    ∀ r : FilePath, '\\' ∉ r.path →
      (FilePath.div FilePath.mkEmpty r).path =
        if startsWithSep r.path = true then r.path else '/' :: r.path := by
  rintro ⟨r⟩ hr
  rw [show FilePath.div FilePath.mkEmpty ⟨r⟩ = FilePath.divAssign ⟨[]⟩ ⟨r⟩ from rfl]
  rw [divAssign_raw, isEmpty_or_not_starts]
  cases hS : startsWithSep r <;>
    simp only [List.isEmpty_nil, if_true, Bool.not_false, Bool.not_true,
      List.nil_append, Bool.false_eq_true, if_false]
  · exact normalizeChars_eq_self (by
      intro h
      rcases List.mem_cons.mp h with h | h
      · exact absurd h (by decide)
      · exact hr h) (drivePreB_sep_cons r)
  · cases r with
    | nil => simp [startsWithSep] at hS
    | cons c r2 =>
      have hc : c = '/' := by simpa [startsWithSep] using hS
      subst hc
      exact normalizeChars_eq_self hr (drivePreB_sep_cons r2)

/-- Witness for claim C2 at the concrete right operands b and /b. -/
theorem claim2_append_empty_left_witness :
    (FilePath.div FilePath.mkEmpty (FilePath.ofString "b")).path =
      (if startsWithSep (FilePath.ofString "b").path = true then
        (FilePath.ofString "b").path
      else '/' :: (FilePath.ofString "b").path) :=
  claim2_append_empty_left (FilePath.ofString "b") (by decide)

/-- Claim C3: operator+= appends the right operand's raw canonical string
to the left's with no separator inserted and then normalizes (so on
junction-safe operands the result is the plain concatenation), while
operator/ inserts a separator: FilePath("a") + FilePath("b") is ab and
FilePath("a") / FilePath("b") is a/b. -/
theorem claim3_concat_vs_append :
    (∀ p q : FilePath,
      FilePath.plusAssign p q = ⟨normalizeChars (p.path ++ q.path)⟩)
    ∧ (∀ p q : FilePath, '\\' ∉ p.path → '\\' ∉ q.path →
        drivePreB (p.path ++ q.path) = false →
        (FilePath.plus p q).path = p.path ++ q.path)
    ∧ (FilePath.plus (FilePath.ofString "a") (FilePath.ofString "b")).path
        = ['a', 'b']
    ∧ (FilePath.div (FilePath.ofString "a") (FilePath.ofString "b")).path
        = ['a', '/', 'b'] := by
  refine ⟨fun p q => rfl, ?_, by decide, by decide⟩
  rintro ⟨p⟩ ⟨q⟩ hp hq hd
  show normalizeChars (p ++ q) = p ++ q
  refine normalizeChars_eq_self ?_ hd
  intro h
  rcases List.mem_append.mp h with h | h
  · exact hp h
  · exact hq h

/-- Witness for claim C3 at the concrete operands x and y. -/
theorem claim3_concat_vs_append_witness :
    (FilePath.plus (FilePath.ofString "x") (FilePath.ofString "y")).path =
      (FilePath.ofString "x").path ++ (FilePath.ofString "y").path :=
  claim3_concat_vs_append.2.1 (FilePath.ofString "x") (FilePath.ofString "y")
    (by decide) (by decide) (by decide)

/-- Claim C4 counterexample: normalization is not idempotent.  The string
a:b:c loses its drive prefix once per normalization pass, so a second
pass changes the result again. -/
theorem claim4_counterexample :
    normalizeChars (normalizeChars ['a', ':', 'b', ':', 'c'])
      ≠ normalizeChars ['a', ':', 'b', ':', 'c'] := by
  decide

/-- Claim C4 (amended): normalization is idempotent on every string whose
normalized form does not again begin with a drive-letter prefix (the
separator-replacement step is always idempotent; only a re-exposed drive
prefix can make a second pass differ). -/
theorem claim4_normalize_idem :
    ∀ l : List Char, drivePreB (normalizeChars l) = false →
      normalizeChars (normalizeChars l) = normalizeChars l :=
  fun l h => normalizeChars_eq_self (not_bs_normalizeChars l) h

/-- Witness for claim C4 at the concrete string a/b. -/
theorem claim4_normalize_idem_witness :
    drivePreB (normalizeChars ['a', '/', 'b']) = false
    ∧ normalizeChars (normalizeChars ['a', '/', 'b'])
        = normalizeChars ['a', '/', 'b'] :=
  ⟨by decide, claim4_normalize_idem ['a', '/', 'b'] (by decide)⟩

/-- Claim C5: every constructor and mutating operator leaves the canonical
string free of the foreign separator (the backslash on this host), and
copy assignment copies the string verbatim without re-normalizing, hence
preserves the invariant of its source. -/
theorem claim5_separator_invariant :
    (∀ s : String, '\\' ∉ (FilePath.ofString s).path)
    ∧ (∀ (p : FilePath) (s : String), '\\' ∉ (FilePath.assignString p s).path)
    ∧ (∀ p q : FilePath, '\\' ∉ (FilePath.plusAssign p q).path)
    ∧ (∀ p q : FilePath, '\\' ∉ (FilePath.divAssign p q).path)
    ∧ (∀ p q : FilePath, (FilePath.assign p q).path = q.path
        ∧ ('\\' ∉ q.path → '\\' ∉ (FilePath.assign p q).path)) := by
  refine ⟨fun s => not_bs_normalizeChars _, fun p s => not_bs_normalizeChars _,
    fun p q => not_bs_normalizeChars _, fun p q => not_bs_normalizeChars _,
    fun p q => ⟨rfl, fun h => h⟩⟩

/-- Witness for claim C5: copy assignment from a constructed path keeps
the foreign-separator-free invariant at a concrete input. -/
theorem claim5_separator_invariant_witness :
    '\\' ∉ (FilePath.assign (FilePath.ofString "a") (FilePath.ofString "w\\x")).path :=
  (claim5_separator_invariant.2.2.2.2 (FilePath.ofString "a")
    (FilePath.ofString "w\\x")).2 (by decide)

/-- Claim C10 counterexample: for the reachable path built from a:b:c
(whose canonical string is b:c after one normalization), appending the
empty path does not merely add a trailing separator — the final
normalization strips the re-exposed drive prefix as well. -/
theorem claim10_counterexample :
    endsWithSep (FilePath.ofString "a:b:c").path = false
    ∧ (FilePath.div (FilePath.ofString "a:b:c") FilePath.mkEmpty).path
        ≠ (FilePath.ofString "a:b:c").path ++ ['/'] := by
  decide

/-- Claim C10 (amended): appending an empty path with operator/= is not
the identity: for every path whose canonical string is backslash-free and
carries no leading drive prefix, appending the empty path adds a trailing
native separator exactly when the path does not already end with one
(the empty path included), and in particular the empty path appended to
the empty path yields the separator string. -/
theorem claim10_append_empty_right :
    (∀ p : FilePath, '\\' ∉ p.path → drivePreB p.path = false →
      (FilePath.div p FilePath.mkEmpty).path =
        if endsWithSep p.path = true then p.path else p.path ++ ['/'])
    ∧ (FilePath.div FilePath.mkEmpty FilePath.mkEmpty).path = ['/'] := by
  refine ⟨?_, by decide⟩
  rintro ⟨p⟩ hp hd
  cases p with
  | nil => decide
  | cons c t =>
    have h := divAssign_junction (c :: t) [] hp (by simp) hd (by simp)
    rw [show FilePath.mkEmpty = (⟨[]⟩ : FilePath) from rfl]
    rw [show FilePath.div ⟨c :: t⟩ ⟨[]⟩ = FilePath.divAssign ⟨c :: t⟩ ⟨[]⟩ from rfl, h]
    cases hE : endsWithSep (c :: t) <;>
      simp [startsWithSep]

/-- Witness for claim C10 at the concrete path a. -/
theorem claim10_append_empty_right_witness :
    (FilePath.div (FilePath.ofString "a") FilePath.mkEmpty).path =
      (if endsWithSep (FilePath.ofString "a").path = true then
        (FilePath.ofString "a").path
      else (FilePath.ofString "a").path ++ ['/']) :=
  claim10_append_empty_right.1 (FilePath.ofString "a") (by decide) (by decide)

/-- Modelled from the spec: the application name constant known to the
process, used to build the per-user directories. -/
def app_name : String := "tec"

/-- Modelled from the spec (§4.5): the ordered probe candidates for the
assets base directory, relative to the current working directory and to
the program's base directory. -/
def assetCandidates (progDir : FilePath) : List FilePath :=
  [FilePath.ofString "./assets/",
   FilePath.div progDir (FilePath.ofString "assets"),
   FilePath.div progDir (FilePath.ofString "../assets"),
   FilePath.div progDir (FilePath.ofString "../share/assets")]

/-- Modelled from the spec: FilePath::GetAssetsBasePath, whose definition
is not in the given sources.  The process-wide cache (the static string
assets_base of the header, empty meaning unset) is passed and returned
explicitly, and the host directory-existence query is an oracle argument.
If the cache holds a value it is returned as-is; otherwise the candidates
are probed in order, the first existing one is cached and returned, and
when none exists the empty path is returned and the failure is not
cached. -/
def GetAssetsBasePath (dirExists : FilePath → Bool) (progDir : FilePath)
    (assets_base : List Char) : FilePath × List Char :=
  if assets_base.isEmpty then
    match (assetCandidates progDir).find? (fun c => dirExists c) with
    | some c => (c, c.path)
    | none => (FilePath.mkEmpty, assets_base)
  else (⟨assets_base⟩, assets_base)

/-- Modelled from the spec: FilePath::SetAssetsBasePath, whose definition
is not in the given sources; it unconditionally replaces the cached
assets base, bypassing the probe. -/
def SetAssetsBasePath (p : FilePath) (_assets_base : List Char) : List Char :=
  p.path

/-- Modelled from the spec: FilePath::GetProgramPath, whose definition is
not in the given sources.  The host-specific query result is passed as an
Option; a failed query yields the empty path, and the function is total
(never raises). -/
def GetProgramPath (osQuery : Option String) : FilePath :=
  match osQuery with
  | some s => FilePath.ofString s
  | none => FilePath.mkEmpty

/-- Modelled from the spec: FilePath::GetUserSettingsPath, whose
definition is not in the given sources.  On this host it derives
home/.config/app_name from the environment query, caching the result on
success; a failed query yields the empty path and leaves the cache
unchanged. -/
def GetUserSettingsPath (envQuery : Option String)
    (settings_folder : List Char) : FilePath × List Char :=
  if settings_folder.isEmpty then
    match envQuery with
    | some home =>
      let p := FilePath.div (FilePath.div (FilePath.ofString home)
        (FilePath.ofString ".config")) (FilePath.ofString app_name)
      (p, p.path)
    | none => (FilePath.mkEmpty, settings_folder)
  else (⟨settings_folder⟩, settings_folder)

/-- Modelled from the spec: FilePath::GetUserDataPath, whose definition is
not in the given sources.  On this host it derives
home/.local/share/app_name from the environment query, caching on
success; a failed query yields the empty path. -/
def GetUserDataPath (envQuery : Option String)
    (udata_folder : List Char) : FilePath × List Char :=
  if udata_folder.isEmpty then
    match envQuery with
    | some home =>
      let p := FilePath.div (FilePath.div (FilePath.div (FilePath.ofString home)
        (FilePath.ofString ".local")) (FilePath.ofString "share"))
        (FilePath.ofString app_name)
      (p, p.path)
    | none => (FilePath.mkEmpty, udata_folder)
  else (⟨udata_folder⟩, udata_folder)

/-- Modelled from the spec: FilePath::GetUserCachePath, whose definition
is not in the given sources.  On this host it derives
home/.cache/app_name from the environment query, caching on success; a
failed query yields the empty path. -/
def GetUserCachePath (envQuery : Option String)
    (cache_folder : List Char) : FilePath × List Char :=
  if cache_folder.isEmpty then
    match envQuery with
    | some home =>
      let p := FilePath.div (FilePath.div (FilePath.ofString home)
        (FilePath.ofString ".cache")) (FilePath.ofString app_name)
      (p, p.path)
    | none => (FilePath.mkEmpty, cache_folder)
  else (⟨cache_folder⟩, cache_folder)

/-- Modelled from the spec and the header doc comment: toGenericString
returns the path using the fixed generic separator (the header documents
the backslash as always used) regardless of host OS; on this host every
native separator is rewritten to it. -/
def FilePath.toGenericString (p : FilePath) : List Char :=
  p.path.map (fun c => if c = '/' then '\\' else c)

/-- Whitespace test used by formatted stream extraction of a token. -/
def isWS (c : Char) : Bool := c == ' ' || c == '\t' || c == '\n' || c == '\r'

/-- Formatted extraction of one whitespace-delimited token from the
stream contents: skip leading whitespace, then take the maximal run of
non-whitespace characters; returns the token and the remaining
contents (an empty token when the stream holds only whitespace). -/
def extractToken (s : List Char) : List Char × List Char :=
  let rest := s.dropWhile isWS
  (rest.takeWhile (fun c => !(isWS c)), rest.dropWhile (fun c => !(isWS c)))

/-- Stream insertion operator from the header: writes exactly toString()
of the path onto the stream. -/
def streamInsert (os : List Char) (p : FilePath) : List Char := os ++ p.path

/-- Stream extraction operator from the header: reads one
whitespace-delimited token (possibly empty) and assigns the FilePath
constructed — and thus normalized — from it to the target, replacing the
old value; returns the remaining stream contents and the new target. -/
def streamExtract (s : List Char) (_target : FilePath) : List Char × FilePath :=
  let t := extractToken s
  (t.2, FilePath.ofString ⟨t.1⟩)

/-- Claim C6: once the assets cache holds a value every later call returns
it unchanged, independently of the state of the filesystem (no
re-probing); with an empty cache the first existing candidate is returned
and cached; when no candidate exists the empty path is returned and the
failure is not cached, so a later call probes again and can succeed; the
explicit setter unconditionally replaces the cached value. -/
theorem claim6_assets_cache :
    (∀ (d : FilePath → Bool) (prog : FilePath) (cache : List Char),
      cache ≠ [] → GetAssetsBasePath d prog cache = (⟨cache⟩, cache))
    ∧ (∀ (d : FilePath → Bool) (prog : FilePath) (c : FilePath),
        (assetCandidates prog).find? (fun x => d x) = some c →
        GetAssetsBasePath d prog [] = (c, c.path))
    ∧ (∀ (d : FilePath → Bool) (prog : FilePath),
        (assetCandidates prog).find? (fun x => d x) = none →
        GetAssetsBasePath d prog [] = (FilePath.mkEmpty, []))
    ∧ (∀ (d₁ d₂ : FilePath → Bool) (prog : FilePath) (c : FilePath),
        (assetCandidates prog).find? (fun x => d₁ x) = none →
        (assetCandidates prog).find? (fun x => d₂ x) = some c →
        GetAssetsBasePath d₂ prog (GetAssetsBasePath d₁ prog []).2 = (c, c.path))
    ∧ (∀ (p : FilePath) (cache : List Char),
        SetAssetsBasePath p cache = p.path) := by
  have hsome : ∀ (d : FilePath → Bool) (prog : FilePath) (c : FilePath),
      (assetCandidates prog).find? (fun x => d x) = some c →
      GetAssetsBasePath d prog [] = (c, c.path) := by
    intro d prog c h
    simp only [GetAssetsBasePath, List.isEmpty_nil, if_true, h]
  have hnone : ∀ (d : FilePath → Bool) (prog : FilePath),
      (assetCandidates prog).find? (fun x => d x) = none →
      GetAssetsBasePath d prog [] = (FilePath.mkEmpty, []) := by
    intro d prog h
    simp only [GetAssetsBasePath, List.isEmpty_nil, if_true, h]
  refine ⟨?_, hsome, hnone, ?_, fun p cache => rfl⟩
  · intro d prog cache hne
    have h : cache.isEmpty = false := by
      cases cache with
      | nil => exact absurd rfl hne
      | cons c t => rfl
    simp only [GetAssetsBasePath, h, Bool.false_eq_true, if_false]
  · intro d₁ d₂ prog c h₁ h₂
    rw [hnone d₁ prog h₁]
    exact hsome d₂ prog c h₂

/-- Witness for claim C6 at concrete oracles and cache contents. -/
theorem claim6_assets_cache_witness :
    GetAssetsBasePath (fun _ => false) (FilePath.ofString "p")
        ['q'] = (⟨['q']⟩, ['q'])
    ∧ GetAssetsBasePath (fun _ => true) (FilePath.ofString "p") []
        = (FilePath.ofString "./assets/",
           (FilePath.ofString "./assets/").path)
    ∧ GetAssetsBasePath (fun _ => false) (FilePath.ofString "p") []
        = (FilePath.mkEmpty, []) :=
  ⟨claim6_assets_cache.1 (fun _ => false) (FilePath.ofString "p") ['q']
      (by decide),
   claim6_assets_cache.2.1 (fun _ => true) (FilePath.ofString "p")
      (FilePath.ofString "./assets/") (by decide),
   claim6_assets_cache.2.2.1 (fun _ => false) (FilePath.ofString "p")
      (by decide)⟩

/-- Claim C7: each unresolvable platform query — GetProgramPath,
GetUserSettingsPath, GetUserDataPath, GetUserCachePath — returns the
empty path when the underlying host query fails; all four are total
functions, so no exception or abort is possible. -/
theorem claim7_failure_empty :
    (GetProgramPath none).path = []
    ∧ (GetUserSettingsPath none []).1.path = []
    ∧ (GetUserDataPath none []).1.path = []
    ∧ (GetUserCachePath none []).1.path = [] :=
  ⟨rfl, rfl, rfl, rfl⟩

/-- Claim C8: stream insertion writes exactly toString() of the path;
stream extraction reads one whitespace-delimited token (the extracted
token never contains whitespace) and assigns the normalized FilePath
constructed from it to the target regardless of the target's old value;
when the stream holds no token the target becomes the empty path and no
exception occurs (the extraction is a total function). -/
theorem claim8_stream_ops :
    (∀ (os : List Char) (p : FilePath),
      streamInsert os p = os ++ (FilePath.toString p).data)
    ∧ (∀ s : List Char, ∀ c ∈ (extractToken s).1, isWS c = false)
    ∧ (∀ (s : List Char) (old : FilePath),
        (streamExtract s old).2 = FilePath.ofString ⟨(extractToken s).1⟩)
    ∧ (∀ (s : List Char) (old : FilePath), (∀ c ∈ s, isWS c = true) →
        (streamExtract s old).2 = FilePath.mkEmpty) := by
  refine ⟨fun os p => rfl, ?_, fun s old => rfl, ?_⟩
  · intro s c hc
    have h := List.mem_takeWhile_imp hc
    simpa using h
  · intro s old h
    have hdrop : s.dropWhile isWS = [] := by
      rw [List.dropWhile_eq_nil_iff]
      exact fun x hx => by simpa using h x hx
    show FilePath.ofString ⟨(extractToken s).1⟩ = FilePath.mkEmpty
    have ht : (extractToken s).1 = [] := by
      simp only [extractToken, hdrop, List.takeWhile_nil]
    rw [ht]
    rfl

/-- Witness for claim C8: extracting from a whitespace-only stream leaves
the target the empty path, and the token of a mixed stream is
whitespace-free. -/
theorem claim8_stream_ops_witness :
    (streamExtract [' '] (FilePath.ofString "z")).2 = FilePath.mkEmpty
    ∧ isWS 'a' = false :=
  ⟨claim8_stream_ops.2.2.2 [' '] (FilePath.ofString "z") (by decide),
   claim8_stream_ops.2.1 ['a', ' ', 'b'] 'a' (by decide)⟩

/-- Claim C9: the generic form of every path contains no native
separator; every separator character remaining in it is the single fixed
generic separator, independently of the input. -/
theorem claim9_generic_fixed_sep :
    ∀ p : FilePath, '/' ∉ FilePath.toGenericString p
      ∧ ∀ c ∈ FilePath.toGenericString p, (c = '/' ∨ c = '\\') → c = '\\' := by
  intro p
  have h1 : '/' ∉ FilePath.toGenericString p := by
    intro h
    simp only [FilePath.toGenericString, List.mem_map] at h
    obtain ⟨c, _, hc⟩ := h
    by_cases h' : c = '/' <;> simp [h'] at hc
  refine ⟨h1, ?_⟩
  intro c hc hor
  rcases hor with h | h
  · subst h
    exact absurd hc h1
  · exact h

/-- Witness for claim C9 at the concrete path a/b. -/
theorem claim9_generic_fixed_sep_witness :
    '/' ∉ FilePath.toGenericString (FilePath.ofString "a/b")
    ∧ ('\\' : Char) = '\\' :=
  ⟨(claim9_generic_fixed_sep (FilePath.ofString "a/b")).1,
   (claim9_generic_fixed_sep (FilePath.ofString "a/b")).2 '\\' (by decide)
     (Or.inr rfl)⟩

end tec
